import Mathlib

/-!
Verification of the astinus tabular data engine against its specification.

The Rust sources (`src/spreadsheet.rs`, `src/formats.rs`, `src/ui.rs`) are
shallowly embedded below.  The SQLite `columns` and `cells` tables of the
`Spreadsheet` struct are modelled as lists of table rows kept in insertion
order; SQL statements become the corresponding pure list operations, with
`ORDER BY` modelled by sorting on the queried key.  Rust `i64` values are
modelled as `Int` (the quantities involved are nowhere near the `i64` range,
so wrap-around is immaterial).  Fallible database writes are modelled twice:
a pure version in which every write succeeds, and a `…F` version threaded
with a schedule of write outcomes, used for the error-path properties.
-/

namespace Astinus

/-- A row of the `cells` table (`column`, `row`, `value` per the schema created
in `Spreadsheet::new`).  `value` is a nullable TEXT column. -/
structure CellRec where
  column : Int
  row : Int
  value : Option String
deriving DecidableEq, Repr

/-- `InsertPosition` from spreadsheet.rs: insert at an explicit index or append
at the end. -/
inductive InsertPosition where
  | Index : Int → InsertPosition
  | End : InsertPosition
deriving DecidableEq, Repr

/-- The `Spreadsheet` aggregate from spreadsheet.rs: the two database tables,
the `dirty` flag, and the cached `row_count`. -/
structure Spreadsheet where
  columns : List (Int × String)
  cells : List CellRec
  dirty : Bool
  row_count : Int
deriving DecidableEq, Repr

/-- `Spreadsheet::new`: empty tables, clean, zero cached rows. -/
def Spreadsheet.new : Spreadsheet :=
  { columns := [], cells := [], dirty := false, row_count := 0 }

/-- `SELECT COUNT(id) FROM columns`. -/
def Spreadsheet.get_column_count (s : Spreadsheet) : Int :=
  (s.columns.length : Int)

/-- The key order of `SELECT name FROM columns ORDER BY id ASC`. -/
def colLe (a b : Int × String) : Prop := a.1 ≤ b.1

instance : DecidableRel colLe := fun a b => (inferInstance : Decidable (a.1 ≤ b.1))

instance : IsTotal (Int × String) colLe := ⟨fun a b => le_total a.1 b.1⟩

instance : IsTrans (Int × String) colLe := ⟨fun _ _ _ h₁ h₂ => le_trans h₁ h₂⟩

/-- Strict id order on catalog rows; used to pin down the unique id-sorted
permutation of a catalog with pairwise-distinct ids. -/
def colLt (a b : Int × String) : Prop := a.1 < b.1

instance : IsAntisymm (Int × String) colLt :=
  ⟨fun _ _ h₁ h₂ => absurd (lt_trans h₁ h₂) (lt_irrefl _)⟩

/-- `Spreadsheet::get_columns`: names ordered by id ascending. -/
def Spreadsheet.get_columns (s : Spreadsheet) : List String :=
  (List.insertionSort colLe s.columns).map Prod.snd

/-- `Spreadsheet::insert_columns`: shift ids `≥ position` right by
`names.len()`, then insert the new columns at `position + offset`. -/
def Spreadsheet.insert_columns (s : Spreadsheet) (position : InsertPosition)
    (names : List String) : Spreadsheet :=
  let position : Int := match position with
    | .Index i => i
    | .End => s.get_column_count
  let shift_amount : Int := (names.length : Int)
  let shifted := s.columns.map fun c =>
    if c.1 ≥ position then (c.1 + shift_amount, c.2) else c
  { s with
    columns := shifted ++ names.enum.map (fun p => (position + (p.1 : Int), p.2)),
    dirty := true }

/-- `Spreadsheet::get_cell`: `SELECT value FROM cells WHERE row = ? AND
column = ?`, first matching table row, absent key yields `None`. -/
def Spreadsheet.get_cell (s : Spreadsheet) (row column : Int) : Option String :=
  match s.cells.find? (fun c => c.row == row && c.column == column) with
  | some c => c.value
  | none => none

/-- `Spreadsheet::set_cell`: `UPDATE cells SET value = ? WHERE row = ? AND
column = ?`, then set `dirty`. -/
def Spreadsheet.set_cell (s : Spreadsheet) (row column : Int)
    (value : Option String) : Spreadsheet :=
  { s with
    cells := s.cells.map fun c =>
      if c.row == row && c.column == column then { c with value := value } else c,
    dirty := true }

/-- `Spreadsheet::get_row_count`: reads the cache. -/
def Spreadsheet.get_row_count (s : Spreadsheet) : Int :=
  s.row_count

/-- The key order of `ORDER BY row, column ASC` on the `cells` table. -/
def cellLe (a b : CellRec) : Prop :=
  a.row < b.row ∨ (a.row = b.row ∧ a.column ≤ b.column)

instance : DecidableRel cellLe := fun a b =>
  (inferInstance : Decidable (a.row < b.row ∨ (a.row = b.row ∧ a.column ≤ b.column)))

/-- The result-accumulation loop of `Spreadsheet::get_rows`, iterating over the
queried `(row, value)` pairs with accumulators `rows` and `row`. -/
def getRowsLoop (start : Int) :
    List (Int × Option String) → List (List (Option String)) →
    List (Option String) → List (List (Option String))
  | [], rows, row => rows ++ [row]
  | (current_row, v) :: rest, rows, row =>
    if current_row - start > (rows.length : Int) then
      getRowsLoop start rest (rows ++ [row]) [v]
    else
      getRowsLoop start rest rows (row ++ [v])

/-- `Spreadsheet::get_rows`: select the cells whose row lies in
`[start, end]`, ordered by `(row, column)`, then run the accumulation loop.
(The Rust parameter `end` is named `end_` here, `end` being a Lean keyword.) -/
def Spreadsheet.get_rows (s : Spreadsheet) (start end_ : Int) :
    List (List (Option String)) :=
  let selected := s.cells.filter fun c => start ≤ c.row && c.row ≤ end_
  let ordered := List.insertionSort cellLe selected
  getRowsLoop start (ordered.map fun c => (c.row, c.value)) [] []

/-- `Spreadsheet::insert_row`: resolve the position, shift cells with
`row ≥ position` down by one unless appending, insert `values[i]` at column
`i`, then bump `row_count` and set `dirty`. -/
def Spreadsheet.insert_row (s : Spreadsheet) (position : InsertPosition)
    (values : List String) : Spreadsheet :=
  let row : Int := match position with
    | .Index i => i
    | .End => s.get_row_count
  let cells₀ :=
    if position ≠ InsertPosition.End then
      s.cells.map fun c => if c.row ≥ row then { c with row := c.row + 1 } else c
    else
      s.cells
  { s with
    cells := cells₀ ++ values.enum.map
      (fun p => { column := (p.1 : Int), row := row, value := some p.2 }),
    row_count := s.row_count + 1,
    dirty := true }

/-- `Spreadsheet::delete_rows`: clamp, validate, delete the cells of rows
`[start, end]`, shift later rows up by `count`, decrement `row_count`, set
`dirty`.  The validation failure is the boxed error string of the source. -/
def Spreadsheet.delete_rows (s : Spreadsheet) (start end_ : Int) :
    Except String Spreadsheet :=
  let start := max 0 (min s.get_row_count start)
  let end_ := max 0 (min s.get_row_count end_)
  if start > end_ then
    .error "Starting row must be greater than or equal to the ending row"
  else
    let count := end_ - start + 1
    let remaining := s.cells.filter fun c => !(start ≤ c.row && c.row ≤ end_)
    let shifted := remaining.map fun c =>
      if c.row > end_ then { c with row := c.row - count } else c
    .ok { s with cells := shifted, row_count := s.get_row_count - count, dirty := true }

/-- `Spreadsheet::is_dirty`. -/
def Spreadsheet.is_dirty (s : Spreadsheet) : Bool :=
  s.dirty

/-- `Spreadsheet::clear_dirty`. -/
def Spreadsheet.clear_dirty (s : Spreadsheet) : Spreadsheet :=
  { s with dirty := false }

/-- `load_csv` from formats.rs: inserts the header names directly into the
`columns` table (id = position) and every record's fields directly into the
`cells` table (`row` = record index, `column` = field position), using its own
local row counter.  It neither calls `insert_row` nor touches the cached
`row_count` or the `dirty` flag.  The CSV file is abstracted to its parsed
headers and records. -/
def load_csv (headers : List String) (records : List (List String))
    (s : Spreadsheet) : Spreadsheet :=
  let s := { s with columns := s.columns ++ headers.enum.map (fun (p : Nat × String) => ((p.1 : Int), p.2)) }
  { s with cells := s.cells ++
      (records.enum.map (fun (r : Nat × List String) =>
        r.2.enum.map (fun (p : Nat × String) => CellRec.mk (p.1 : Int) (r.1 : Int) (some p.2)))).flatten }

/-- `Spreadsheet::open`: dispatch on the file extension (only `csv` has a
loader), load into a fresh spreadsheet, then clear the dirty flag.  The path
is abstracted to its extension plus the parsed CSV content handed to the
loader. -/
def Spreadsheet.«open» (extension : Option String) (headers : List String)
    (records : List (List String)) : Except String Spreadsheet :=
  match extension with
  | some "csv" =>
    let spreadsheet := Spreadsheet.new
    let spreadsheet := load_csv headers records spreadsheet
    .ok spreadsheet.clear_dirty
  | _ => .error "Unknown file extension."

/-- Modelled from the spec: `save_csv` is called by `Spreadsheet::save` but its
body is missing from the sources (formats.rs only defines `load_csv`).  Per §6
the adapter is handed the column list and a row reader and only serializes
them, so it is modelled as a read-only operation. -/
def save_csv (_s : Spreadsheet) : Except String Unit :=
  .ok ()

/-- `Spreadsheet::save`: delegate to the adapter's writer, then clear `dirty`
on success only. -/
def Spreadsheet.save (s : Spreadsheet) : Except String Spreadsheet :=
  match save_csv s with
  | .ok _ => .ok s.clear_dirty
  | .error e => .error e

/-! ### Pagination (ui.rs) -/

/-- `PAGE_SIZE` from ui.rs. -/
def PAGE_SIZE : Int := 1000

/-- The pagination-relevant state of `MainWindow`: the optional open
spreadsheet and the current page. -/
structure MainWindow where
  spreadsheet : Option Spreadsheet
  page : Int
deriving Repr

/-- `MainWindow::get_current_page`. -/
def MainWindow.get_current_page (w : MainWindow) : Int :=
  w.page

/-- `MainWindow::get_page_count`: `row_count / PAGE_SIZE + 1` when a file is
open, else 0.  Rust `i64` division truncates toward zero, hence `Int.tdiv`. -/
def MainWindow.get_page_count (w : MainWindow) : Int :=
  match w.spreadsheet with
  | some s => s.get_row_count.tdiv PAGE_SIZE + 1
  | none => 0

/-- `MainWindow::get_row_count`. -/
def MainWindow.get_row_count (w : MainWindow) : Int :=
  match w.spreadsheet with
  | some s => s.get_row_count
  | none => 0

/-- `MainWindow::get_first_row_offset`. -/
def MainWindow.get_first_row_offset (w : MainWindow) : Int :=
  (w.get_current_page - 1) * PAGE_SIZE

/-- `MainWindow::get_last_row_offset`. -/
def MainWindow.get_last_row_offset (w : MainWindow) : Int :=
  min (w.get_first_row_offset + PAGE_SIZE - 1) (w.get_row_count - 1)

/-- `MainWindow::go_to_page`: clamp the requested page into
`[1, page_count]`, update the current page if it differs (the triggered view
refresh is outside the embedded state). -/
def MainWindow.go_to_page (w : MainWindow) (page : Int) : MainWindow :=
  let page := max 1 (min page w.get_page_count)
  if w.get_current_page ≠ page then { w with page := page } else w

/-! ### Fallible variants

The `…F` functions re-run the three mutators with every database `execute`
threaded through a schedule of outcomes (`true` = the write succeeds); a
failed write returns a storage error carrying the spreadsheet state at the
point of failure, mirroring the early `?` return in the Rust code where
`self` keeps whatever writes already happened. -/

/-- Failure kinds of §7 that the mutators can actually return. -/
inductive FailKind where
  | validation : FailKind
  | storage : FailKind
deriving DecidableEq, Repr

/-- The per-cell `INSERT INTO cells` loop of `Spreadsheet::insert_row`, each
insert fallible. -/
def insertCellsF (row : Int) :
    List (Nat × String) → Spreadsheet → List Bool →
    Except (FailKind × Spreadsheet) (Spreadsheet × List Bool)
  | [], s, sched => .ok (s, sched)
  | (pos, value) :: rest, s, sched =>
    if sched.headD true then
      insertCellsF row rest
        { s with cells := s.cells ++ [⟨(pos : Int), row, some value⟩] } sched.tail
    else
      .error (.storage, s)

/-- `Spreadsheet::insert_row` with fallible writes. -/
def Spreadsheet.insert_rowF (s : Spreadsheet) (position : InsertPosition)
    (values : List String) (sched : List Bool) :
    Except (FailKind × Spreadsheet) Spreadsheet :=
  let row : Int := match position with
    | .Index i => i
    | .End => s.get_row_count
  let step₁ : Except (FailKind × Spreadsheet) (Spreadsheet × List Bool) :=
    if position ≠ InsertPosition.End then
      if sched.headD true then
        .ok ({ s with cells := s.cells.map fun c =>
                if c.row ≥ row then { c with row := c.row + 1 } else c },
             sched.tail)
      else
        .error (.storage, s)
    else
      .ok (s, sched)
  match step₁ with
  | .error e => .error e
  | .ok (s₁, sched₁) =>
    match insertCellsF row values.enum s₁ sched₁ with
    | .error e => .error e
    | .ok (s₂, _) => .ok { s₂ with row_count := s₂.row_count + 1, dirty := true }

/-- The per-column `INSERT INTO columns` loop of `Spreadsheet::insert_columns`,
each insert fallible. -/
def insertColsF (position : Int) :
    List (Nat × String) → Spreadsheet → List Bool →
    Except (FailKind × Spreadsheet) (Spreadsheet × List Bool)
  | [], s, sched => .ok (s, sched)
  | (offset, value) :: rest, s, sched =>
    if sched.headD true then
      insertColsF position rest
        { s with columns := s.columns ++ [(position + (offset : Int), value)] } sched.tail
    else
      .error (.storage, s)

/-- `Spreadsheet::insert_columns` with fallible writes. -/
def Spreadsheet.insert_columnsF (s : Spreadsheet) (position : InsertPosition)
    (names : List String) (sched : List Bool) :
    Except (FailKind × Spreadsheet) Spreadsheet :=
  let position : Int := match position with
    | .Index i => i
    | .End => s.get_column_count
  let shift_amount : Int := (names.length : Int)
  if sched.headD true then
    let s₁ := { s with columns := s.columns.map fun c =>
      if c.1 ≥ position then (c.1 + shift_amount, c.2) else c }
    match insertColsF position names.enum s₁ sched.tail with
    | .error e => .error e
    | .ok (s₂, _) => .ok { s₂ with dirty := true }
  else
    .error (.storage, s)

/-- `Spreadsheet::delete_rows` with fallible writes (the `DELETE` and the
shifting `UPDATE`); the validation check happens before any write. -/
def Spreadsheet.delete_rowsF (s : Spreadsheet) (start end_ : Int)
    (sched : List Bool) : Except (FailKind × Spreadsheet) Spreadsheet :=
  let start := max 0 (min s.get_row_count start)
  let end_ := max 0 (min s.get_row_count end_)
  if start > end_ then
    .error (.validation, s)
  else
    let count := end_ - start + 1
    if sched.headD true then
      let s₁ := { s with cells := s.cells.filter fun c => !(start ≤ c.row && c.row ≤ end_) }
      if sched.tail.headD true then
        let s₂ := { s₁ with cells := s₁.cells.map fun (c : CellRec) =>
          if c.row > end_ then { c with row := c.row - count } else c }
        .ok { s₂ with row_count := s₂.get_row_count - count, dirty := true }
      else
        .error (.storage, s₁)
    else
      .error (.storage, s)

/-! ### The operation alphabet of the store's public interface (§6),
used to state the dirty-flag lifecycle. -/

/-- One call against an open `Spreadsheet` through its public interface. -/
inductive Op where
  | insert_columns : InsertPosition → List String → Op
  | set_cell : Int → Int → Option String → Op
  | insert_row : InsertPosition → List String → Op
  | delete_rows : Int → Int → Op
  | get_cell : Int → Int → Op
  | get_rows : Int → Int → Op
  | get_columns : Op
  | get_column_count : Op
  | get_row_count : Op
  | is_dirty : Op
  | clear_dirty : Op
  | save : Op
deriving DecidableEq, Repr

/-- Whether an operation mutates the store. -/
def Op.mutating : Op → Bool
  | .insert_columns _ _ => true
  | .set_cell _ _ _ => true
  | .insert_row _ _ => true
  | .delete_rows _ _ => true
  | _ => false

/-- The state transition of one public call: reads leave the state unchanged,
mutators apply their embedding, `delete_rows` and `save` may fail (a failed
`delete_rows` returns before touching the state). -/
def applyOp (s : Spreadsheet) : Op → Except String Spreadsheet
  | .insert_columns p names => .ok (s.insert_columns p names)
  | .set_cell r c v => .ok (s.set_cell r c v)
  | .insert_row p values => .ok (s.insert_row p values)
  | .delete_rows a b => s.delete_rows a b
  | .get_cell _ _ => .ok s
  | .get_rows _ _ => .ok s
  | .get_columns => .ok s
  | .get_column_count => .ok s
  | .get_row_count => .ok s
  | .is_dirty => .ok s
  | .clear_dirty => .ok s.clear_dirty
  | .save => s.save

/-! ### Canonical well-formed shapes used by the specification statements -/

/-- The table rows of a well-formed column catalog holding `names` with
contiguous ids `k, k+1, …` (the §3 catalog invariant, in id order). -/
def canonicalFrom (k : Nat) : List String → List (Int × String)
  | [] => []
  | n :: rest => ((k : Int), n) :: canonicalFrom (k + 1) rest

/-- The cells of one logical row holding `values` in columns `k, k+1, …`. -/
def rowCellsFrom (k : Nat) (row : Int) : List String → List CellRec
  | [] => []
  | v :: rest => ⟨(k : Int), row, some v⟩ :: rowCellsFrom (k + 1) row rest

/-- §3 invariant relating cells to the cached row count: every stored cell
lies strictly below `row_count`. -/
def Spreadsheet.rowsInBounds (s : Spreadsheet) : Prop :=
  ∀ c ∈ s.cells, c.row < s.row_count

/-! ## Claim theorems -/

/-- C1: the claim states that `open` populates the store through `insert_row`
so that the cached `row_count` afterwards equals the number of data rows.
The code does not: `load_csv` inserts the cells directly into the database
with its own row counter and never updates the cache.  Evaluated at a CSV
file with one header and one data row, `open` succeeds, the single data cell
is loaded, yet `get_row_count` returns 0 instead of 1. -/
theorem claim_C1_open_row_count_not_updated :
    (Spreadsheet.«open» (some "csv") ["a"] [["1"]]).map Spreadsheet.get_row_count
      = .ok 0 ∧
    (Spreadsheet.«open» (some "csv") ["a"] [["1"]]).map (fun s => s.cells.length)
      = .ok 1 :=
  ⟨rfl, rfl⟩

/-- C2: the claim states that `get_rows start end` returns exactly
`end - start + 1` entries, emitting an all-absent row for a row with no
stored cells.  The code's accumulation loop does not gap-fill: on a
spreadsheet with two logical rows and no stored cells (two `insert_row(End,
[])` calls), `get_rows 0 1` returns a single entry instead of two. -/
theorem claim_C2_get_rows_skips_cell_free_rows :
    ((Spreadsheet.new.insert_row .End []).insert_row .End []).get_row_count = 2 ∧
    (((Spreadsheet.new.insert_row .End []).insert_row .End []).get_rows 0 1).length = 1 :=
  ⟨rfl, rfl⟩

/-- C3: the claim states that `delete_rows` clamps `start` and `end` into
`[0, row_count - 1]`.  The code clamps into `[0, row_count]`: on a one-row
spreadsheet whose only cell holds `"x"`, `delete_rows 1 1` — which under the
claimed clamping would behave like `delete_rows 0 0` and delete the cell —
instead succeeds without deleting anything while still decrementing
`row_count` to 0, leaving the cached count inconsistent with the stored
cells. -/
theorem claim_C3_delete_rows_clamps_to_row_count :
    (((Spreadsheet.new.insert_columns .End ["A"]).insert_row .End ["x"]).delete_rows 1 1).map
        (fun t => (t.row_count, t.get_cell 0 0)) = .ok (0, some "x") ∧
    (((Spreadsheet.new.insert_columns .End ["A"]).insert_row .End ["x"]).delete_rows 0 0).map
        (fun t => (t.row_count, t.get_cell 0 0)) = .ok (0, none) :=
  ⟨rfl, rfl⟩

/-- C10: `insert_columns` modifies only the column catalog: the stored cells
(and with them every `(row, column id, value)` triple and every `get_cell`
read), the cached row count and nothing else but catalog and dirty flag are
affected. -/
theorem claim_C10_insert_columns_cell_frame (s : Spreadsheet)
    (position : InsertPosition) (names : List String) :
    (s.insert_columns position names).cells = s.cells ∧
    (s.insert_columns position names).row_count = s.row_count ∧
    ∀ row column, (s.insert_columns position names).get_cell row column = s.get_cell row column :=
  ⟨rfl, rfl, fun _ _ => rfl⟩

/-- C5: with a spreadsheet open, `page_count = row_count / page_size + 1`
(truncating division), `go_to_page` clamps into `[1, page_count]`,
`first_row_offset = (current_page - 1) * page_size`, `last_row_offset =
min(first_row_offset + page_size - 1, row_count - 1)`; and concretely with
`row_count = 2500`: `page_count = 3`, `go_to_page 5` lands on page 3, and
page 2 spans offsets 1000–1999. -/
theorem claim_C5_pagination (w : MainWindow) (s : Spreadsheet)
    (hopen : w.spreadsheet = some s) :
    w.get_page_count = s.row_count.tdiv 1000 + 1 ∧
    (∀ p, (w.go_to_page p).page = max 1 (min p w.get_page_count)) ∧
    w.get_first_row_offset = (w.get_current_page - 1) * 1000 ∧
    w.get_last_row_offset = min (w.get_first_row_offset + 1000 - 1) (w.get_row_count - 1) ∧
    (s.row_count = 2500 →
      w.get_page_count = 3 ∧
      (w.go_to_page 5).page = 3 ∧
      (w.page = 2 → w.get_first_row_offset = 1000 ∧ w.get_last_row_offset = 1999)) := by
  have hpc : w.get_page_count = s.row_count.tdiv 1000 + 1 := by
    simp [MainWindow.get_page_count, hopen, Spreadsheet.get_row_count, PAGE_SIZE]
  have hclamp : ∀ p, (w.go_to_page p).page = max 1 (min p w.get_page_count) := by
    intro p
    unfold MainWindow.go_to_page
    by_cases h : w.get_current_page ≠ max 1 (min p w.get_page_count)
    · rw [if_pos h]
    · rw [if_neg h]
      push_neg at h
      exact h
  refine ⟨hpc, hclamp, rfl, rfl, ?_⟩
  intro hrc
  have h3 : w.get_page_count = 3 := by
    rw [hpc, hrc]
    decide
  refine ⟨h3, ?_, ?_⟩
  · rw [hclamp 5, h3]
    decide
  · intro hpage
    constructor
    · show (w.get_current_page - 1) * PAGE_SIZE = 1000
      rw [MainWindow.get_current_page, hpage]
      decide
    · show min (w.get_first_row_offset + PAGE_SIZE - 1) (w.get_row_count - 1) = 1999
      have hfro : w.get_first_row_offset = 1000 := by
        show (w.get_current_page - 1) * PAGE_SIZE = 1000
        rw [MainWindow.get_current_page, hpage]
        decide
      have hwrc : w.get_row_count = 2500 := by
        simp [MainWindow.get_row_count, hopen, Spreadsheet.get_row_count, hrc]
      rw [hfro, hwrc]
      decide

/-- Witness for C5 at a window on page 2 of a 2500-row spreadsheet. -/
theorem claim_C5_pagination_witness :
    (MainWindow.mk (some (Spreadsheet.mk [] [] false 2500)) 2).get_page_count = 3 ∧
    ((MainWindow.mk (some (Spreadsheet.mk [] [] false 2500)) 2).go_to_page 5).page = 3 ∧
    (MainWindow.mk (some (Spreadsheet.mk [] [] false 2500)) 2).get_first_row_offset = 1000 ∧
    (MainWindow.mk (some (Spreadsheet.mk [] [] false 2500)) 2).get_last_row_offset = 1999 := by
  obtain ⟨-, -, -, -, hc⟩ :=
    claim_C5_pagination (MainWindow.mk (some (Spreadsheet.mk [] [] false 2500)) 2)
      (Spreadsheet.mk [] [] false 2500) rfl
  obtain ⟨h1, h2, h3⟩ := hc rfl
  exact ⟨h1, h2, (h3 rfl).1, (h3 rfl).2⟩

/-- C6: the dirty flag starts false on `new`, is false on a freshly opened
spreadsheet (open clears it after the adapter finishes), becomes true on
every successful mutating call, and goes from true to false only through
`clear_dirty` or a successful `save` — no other operation on an open
spreadsheet clears it. -/
theorem claim_C6_dirty_lifecycle :
    Spreadsheet.new.dirty = false ∧
    (∀ extension headers records s,
      Spreadsheet.«open» extension headers records = .ok s → s.dirty = false) ∧
    (∀ s op s', Op.mutating op = true → applyOp s op = .ok s' → s'.dirty = true) ∧
    (∀ s op s', applyOp s op = .ok s' → s.dirty = true → s'.dirty = false →
      op = Op.clear_dirty ∨ op = Op.save) := by
  refine ⟨rfl, ?_, ?_, ?_⟩
  · intro extension headers records s h
    unfold Spreadsheet.«open» at h
    split at h
    · cases h
      rfl
    · cases h
  · intro s op s' hmut happ
    cases op with
    | insert_columns p names => cases happ; rfl
    | set_cell r c v => cases happ; rfl
    | insert_row p values => cases happ; rfl
    | delete_rows a b =>
      simp only [applyOp, Spreadsheet.delete_rows] at happ
      split at happ
      · cases happ
      · cases happ
        rfl
    | get_cell r c => exact Bool.noConfusion hmut
    | get_rows a b => exact Bool.noConfusion hmut
    | get_columns => exact Bool.noConfusion hmut
    | get_column_count => exact Bool.noConfusion hmut
    | get_row_count => exact Bool.noConfusion hmut
    | is_dirty => exact Bool.noConfusion hmut
    | clear_dirty => exact Bool.noConfusion hmut
    | save => exact Bool.noConfusion hmut
  · intro s op s' happ hd hd'
    cases op with
    | insert_columns p names => cases happ; exact Bool.noConfusion hd'
    | set_cell r c v => cases happ; exact Bool.noConfusion hd'
    | insert_row p values => cases happ; exact Bool.noConfusion hd'
    | delete_rows a b =>
      simp only [applyOp, Spreadsheet.delete_rows] at happ
      split at happ
      · cases happ
      · cases happ
        exact Bool.noConfusion hd'
    | get_cell r c => cases happ; rw [hd] at hd'; exact Bool.noConfusion hd'
    | get_rows a b => cases happ; rw [hd] at hd'; exact Bool.noConfusion hd'
    | get_columns => cases happ; rw [hd] at hd'; exact Bool.noConfusion hd'
    | get_column_count => cases happ; rw [hd] at hd'; exact Bool.noConfusion hd'
    | get_row_count => cases happ; rw [hd] at hd'; exact Bool.noConfusion hd'
    | is_dirty => cases happ; rw [hd] at hd'; exact Bool.noConfusion hd'
    | clear_dirty => exact Or.inl rfl
    | save => exact Or.inr rfl

/-- Witness for C6: a fresh spreadsheet is clean, and a successful
`insert_row` call reports dirty. -/
theorem claim_C6_dirty_lifecycle_witness :
    Spreadsheet.new.dirty = false ∧
    (Spreadsheet.new.insert_row .End ["a"]).dirty = true :=
  ⟨claim_C6_dirty_lifecycle.1,
   claim_C6_dirty_lifecycle.2.2.1 Spreadsheet.new (Op.insert_row .End ["a"])
     (Spreadsheet.new.insert_row .End ["a"]) rfl rfl⟩

/-- C7: `delete_rows` fails with the validation error exactly when the
clamped `start` exceeds the clamped `end`, and a validation failure happens
before any write, leaving the spreadsheet (cells, row count, dirty flag)
completely unchanged — for every schedule of storage-write outcomes. -/
theorem claim_C7_delete_rows_validation (s : Spreadsheet) (start end_ : Int)
    (sched : List Bool) :
    (s.delete_rowsF start end_ sched = .error (.validation, s) ↔
      max 0 (min s.get_row_count start) > max 0 (min s.get_row_count end_)) ∧
    (∀ k s', s.delete_rowsF start end_ sched = .error (k, s') →
      k = FailKind.validation →
      s' = s ∧ max 0 (min s.get_row_count start) > max 0 (min s.get_row_count end_)) := by
  by_cases h : max 0 (min s.get_row_count start) > max 0 (min s.get_row_count end_)
  · have he : s.delete_rowsF start end_ sched = .error (.validation, s) := by
      unfold Spreadsheet.delete_rowsF
      rw [if_pos h]
    refine ⟨⟨fun _ => h, fun _ => he⟩, ?_⟩
    intro k s' h1 _
    rw [he] at h1
    simp only [Except.error.injEq, Prod.mk.injEq] at h1
    exact ⟨h1.2.symm, h⟩
  · have hne : ∀ k s', s.delete_rowsF start end_ sched = .error (k, s') →
        k = FailKind.storage := by
      intro k s' h1
      unfold Spreadsheet.delete_rowsF at h1
      rw [if_neg h] at h1
      split at h1
      · split at h1
        · cases h1
        · simp only [Except.error.injEq, Prod.mk.injEq] at h1
          exact h1.1.symm
      · simp only [Except.error.injEq, Prod.mk.injEq] at h1
        exact h1.1.symm
    constructor
    · constructor
      · intro h1
        exact absurd (hne _ _ h1) (by decide)
      · intro hgt
        exact absurd hgt h
    · intro k s' h1 h2
      rw [h2] at h1
      exact absurd (hne _ _ h1) (by decide)

/-- Witness for C7: on a 3-row spreadsheet, `delete_rows 5 (-1)` clamps to
`start = 3 > 0 = end` and fails with the validation error, state untouched. -/
theorem claim_C7_delete_rows_validation_witness :
    (Spreadsheet.mk [] [] false 3).delete_rowsF 5 (-1) []
      = .error (.validation, Spreadsheet.mk [] [] false 3) :=
  (claim_C7_delete_rows_validation (Spreadsheet.mk [] [] false 3) 5 (-1) []).1.mpr
    (by decide)

/-- A failed write inside the cell-insertion loop leaves the bookkeeping
fields exactly as the loop received them (the loop only appends cells). -/
theorem insertCellsF_error_preserves (row : Int) :
    ∀ (l : List (Nat × String)) (s : Spreadsheet) (sched : List Bool) k s',
      insertCellsF row l s sched = .error (k, s') →
      s'.row_count = s.row_count ∧ s'.dirty = s.dirty := by
  intro l
  induction l with
  | nil =>
    intro s sched k s' h
    cases h
  | cons p rest ih =>
    intro s sched k s' h
    unfold insertCellsF at h
    by_cases hs : sched.headD true = true
    · rw [if_pos hs] at h
      obtain ⟨h1, h2⟩ := ih _ _ _ _ h
      exact ⟨h1, h2⟩
    · rw [if_neg hs] at h
      simp only [Except.error.injEq, Prod.mk.injEq] at h
      rw [← h.2]
      exact ⟨rfl, rfl⟩

/-- A failed write inside the column-insertion loop leaves the bookkeeping
fields exactly as the loop received them (the loop only appends catalog
rows). -/
theorem insertColsF_error_preserves (position : Int) :
    ∀ (l : List (Nat × String)) (s : Spreadsheet) (sched : List Bool) k s',
      insertColsF position l s sched = .error (k, s') →
      s'.row_count = s.row_count ∧ s'.dirty = s.dirty := by
  intro l
  induction l with
  | nil =>
    intro s sched k s' h
    cases h
  | cons p rest ih =>
    intro s sched k s' h
    unfold insertColsF at h
    by_cases hs : sched.headD true = true
    · rw [if_pos hs] at h
      obtain ⟨h1, h2⟩ := ih _ _ _ _ h
      exact ⟨h1, h2⟩
    · rw [if_neg hs] at h
      simp only [Except.error.injEq, Prod.mk.injEq] at h
      rw [← h.2]
      exact ⟨rfl, rfl⟩

/-- C8: for each mutating operation (`insert_row`, `delete_rows`,
`insert_columns`), whenever an underlying storage write fails — under any
schedule of write outcomes — the call returns the error with the cached
`row_count` and the `dirty` flag exactly as they were before the call. -/
theorem claim_C8_failed_write_preserves_bookkeeping :
    (∀ (s : Spreadsheet) position values sched k s',
      s.insert_rowF position values sched = .error (k, s') →
      s'.row_count = s.row_count ∧ s'.dirty = s.dirty) ∧
    (∀ (s : Spreadsheet) start end_ sched k s',
      s.delete_rowsF start end_ sched = .error (k, s') →
      s'.row_count = s.row_count ∧ s'.dirty = s.dirty) ∧
    (∀ (s : Spreadsheet) position names sched k s',
      s.insert_columnsF position names sched = .error (k, s') →
      s'.row_count = s.row_count ∧ s'.dirty = s.dirty) := by
  refine ⟨?_, ?_, ?_⟩
  · intro s position values sched k s' h
    simp only [Spreadsheet.insert_rowF] at h
    split at h
    · rename_i e heq
      simp only [Except.error.injEq] at h
      subst h
      split at heq
      · split at heq
        · cases heq
        · simp only [Except.error.injEq, Prod.mk.injEq] at heq
          rw [← heq.2]
          exact ⟨rfl, rfl⟩
      · cases heq
    · rename_i s₁ sched₁ heq
      split at h
      · rename_i e2 heq2
        simp only [Except.error.injEq] at h
        subst h
        obtain ⟨h1, h2⟩ := insertCellsF_error_preserves _ _ _ _ _ _ heq2
        split at heq
        · split at heq
          · simp only [Except.ok.injEq, Prod.mk.injEq] at heq
            rw [← heq.1] at h1 h2
            exact ⟨h1, h2⟩
          · cases heq
        · simp only [Except.ok.injEq, Prod.mk.injEq] at heq
          rw [← heq.1] at h1 h2
          exact ⟨h1, h2⟩
      · cases h
  · intro s start end_ sched k s' h
    unfold Spreadsheet.delete_rowsF at h
    by_cases hv : max 0 (min s.get_row_count start) > max 0 (min s.get_row_count end_)
    · rw [if_pos hv] at h
      simp only [Except.error.injEq, Prod.mk.injEq] at h
      rw [← h.2]
      exact ⟨rfl, rfl⟩
    · rw [if_neg hv] at h
      by_cases h1 : sched.headD true = true
      · rw [if_pos h1] at h
        by_cases h2 : sched.tail.headD true = true
        · rw [if_pos h2] at h
          cases h
        · rw [if_neg h2] at h
          simp only [Except.error.injEq, Prod.mk.injEq] at h
          rw [← h.2]
          exact ⟨rfl, rfl⟩
      · rw [if_neg h1] at h
        simp only [Except.error.injEq, Prod.mk.injEq] at h
        rw [← h.2]
        exact ⟨rfl, rfl⟩
  · intro s position names sched k s' h
    simp only [Spreadsheet.insert_columnsF] at h
    split at h
    · split at h
      · rename_i e2 heq2
        simp only [Except.error.injEq] at h
        subst h
        obtain ⟨h1, h2⟩ := insertColsF_error_preserves _ _ _ _ _ _ heq2
        exact ⟨h1, h2⟩
      · cases h
    · simp only [Except.error.injEq, Prod.mk.injEq] at h
      rw [← h.2]
      exact ⟨rfl, rfl⟩

/-- Witness for C8: on a fresh spreadsheet, an `insert_row` whose first cell
write fails returns the storage error with `row_count` and `dirty`
untouched. -/
theorem claim_C8_failed_write_witness :
    Spreadsheet.new.insert_rowF .End ["a"] [false]
        = .error (.storage, Spreadsheet.new) ∧
    Spreadsheet.new.row_count = Spreadsheet.new.row_count ∧
    Spreadsheet.new.dirty = Spreadsheet.new.dirty :=
  ⟨rfl, claim_C8_failed_write_preserves_bookkeeping.1 Spreadsheet.new .End ["a"] [false]
      .storage Spreadsheet.new rfl⟩

/-- The cell records built by the insertion loop of `insert_row` are the
canonical cells of one row. -/
theorem enumFrom_map_rowCells (row : Int) (values : List String) :
    ∀ k, (values.enumFrom k).map
        (fun p => CellRec.mk (p.1 : Int) row (some p.2))
      = rowCellsFrom k row values := by
  induction values with
  | nil => intro k; rfl
  | cons v rest ih =>
    intro k
    simp only [List.enumFrom, List.map, rowCellsFrom]
    rw [ih]

/-- Same, at the `enum` entry point used by the source. -/
theorem enum_map_rowCells (row : Int) (values : List String) :
    values.enum.map (fun p => CellRec.mk (p.1 : Int) row (some p.2))
      = rowCellsFrom 0 row values :=
  enumFrom_map_rowCells row values 0

/-- Every cell of a canonical row sits at that row with column `≥ k`. -/
theorem rowCellsFrom_mem (row : Int) :
    ∀ (values : List String) (k : Nat) c, c ∈ rowCellsFrom k row values →
      (k : Int) ≤ c.column ∧ c.row = row := by
  intro values
  induction values with
  | nil =>
    intro k c hc
    cases hc
  | cons v rest ih =>
    intro k c hc
    rw [rowCellsFrom] at hc
    rcases List.mem_cons.mp hc with h | h
    · subst h
      exact ⟨le_refl _, rfl⟩
    · obtain ⟨h1, h2⟩ := ih (k + 1) c h
      refine ⟨le_trans ?_ h1, h2⟩
      push_cast
      omega

/-- The canonical cells of one row are already in `(row, column)` order. -/
theorem rowCellsFrom_sorted (row : Int) :
    ∀ (values : List String) (k : Nat),
      List.Sorted cellLe (rowCellsFrom k row values) := by
  intro values
  induction values with
  | nil => intro k; exact List.sorted_nil
  | cons v rest ih =>
    intro k
    rw [rowCellsFrom, List.sorted_cons]
    refine ⟨?_, ih (k + 1)⟩
    intro b hb
    obtain ⟨h1, h2⟩ := rowCellsFrom_mem row rest (k + 1) b hb
    right
    refine ⟨h2.symm, le_trans ?_ h1⟩
    push_cast
    omega

/-- Projecting the canonical cells of one row to queried `(row, value)` pairs. -/
theorem rowCellsFrom_pairs (row : Int) :
    ∀ (values : List String) (k : Nat),
      (rowCellsFrom k row values).map (fun c => (c.row, c.value))
        = (values.map some).map (fun v => (row, v)) := by
  intro values
  induction values with
  | nil => intro k; rfl
  | cons v rest ih =>
    intro k
    simp only [rowCellsFrom, List.map]
    rw [ih]

/-- The `get_rows` accumulation loop over pairs that all carry the row `start`
appends all their values to the pending row and emits it once. -/
theorem getRowsLoop_same_row (start : Int) :
    ∀ (vals : List (Option String)) (acc : List (Option String)),
      getRowsLoop start (vals.map fun v => (start, v)) [] acc = [acc ++ vals] := by
  intro vals
  induction vals with
  | nil =>
    intro acc
    simp [getRowsLoop]
  | cons v rest ih =>
    intro acc
    simp only [List.map, getRowsLoop]
    rw [if_neg (by simp)]
    rw [ih (acc ++ [v])]
    simp

/-- C4: `insert_row` at an explicit index shifts every existing cell with
`row ≥ position` down by one and then writes the new row's cells (so the new
cells are not themselves shifted); appending at the end performs no shift;
in every case `values[i]` lands in column `i`, `row_count` grows by exactly
one, and after `insert_row(End, values)` on a well-formed store, reading the
last row with `get_rows` returns `values` as optional text. -/
theorem claim_C4_insert_row (s : Spreadsheet) (values : List String) :
    (∀ i : Int, (s.insert_row (.Index i) values).cells
        = (s.cells.map fun c => if c.row ≥ i then { c with row := c.row + 1 } else c)
          ++ rowCellsFrom 0 i values) ∧
    ((s.insert_row .End values).cells = s.cells ++ rowCellsFrom 0 s.row_count values) ∧
    (∀ position, (s.insert_row position values).row_count = s.row_count + 1) ∧
    (s.rowsInBounds →
      (s.insert_row .End values).get_rows
          ((s.insert_row .End values).row_count - 1)
          ((s.insert_row .End values).row_count - 1)
        = [values.map some]) := by
  have hend : (s.insert_row .End values).cells
      = s.cells ++ rowCellsFrom 0 s.row_count values := by
    simp only [Spreadsheet.insert_row, Spreadsheet.get_row_count]
    rw [if_neg (fun hne => hne rfl)]
    rw [enum_map_rowCells]
  have hcount : ∀ position, (s.insert_row position values).row_count = s.row_count + 1 :=
    fun _ => rfl
  refine ⟨?_, hend, hcount, ?_⟩
  · intro i
    simp only [Spreadsheet.insert_row]
    rw [if_pos (fun h => InsertPosition.noConfusion h)]
    rw [enum_map_rowCells]
  · intro hwf
    have hX : (s.insert_row .End values).row_count - 1 = s.row_count := by
      rw [hcount .End]
      ring
    rw [hX]
    have h1 : s.cells.filter (fun c => s.row_count ≤ c.row && c.row ≤ s.row_count) = [] := by
      rw [List.filter_eq_nil_iff]
      intro c hc
      have hlt := hwf c hc
      simp only [Bool.and_eq_true, decide_eq_true_eq, not_and]
      intro h2
      omega
    have h2 : (rowCellsFrom 0 s.row_count values).filter
        (fun c => s.row_count ≤ c.row && c.row ≤ s.row_count)
        = rowCellsFrom 0 s.row_count values := by
      rw [List.filter_eq_self]
      intro c hc
      obtain ⟨-, hr⟩ := rowCellsFrom_mem s.row_count values 0 c hc
      simp [hr]
    have h3 : List.insertionSort cellLe (rowCellsFrom 0 s.row_count values)
        = rowCellsFrom 0 s.row_count values :=
      List.Sorted.insertionSort_eq (rowCellsFrom_sorted s.row_count values 0)
    simp only [Spreadsheet.get_rows]
    rw [hend, List.filter_append, h1, h2, List.nil_append, h3, rowCellsFrom_pairs]
    rw [getRowsLoop_same_row]
    simp

/-- Witness for C4 on a fresh spreadsheet: appending `["x", "y"]` and reading
the last row back. -/
theorem claim_C4_insert_row_witness :
    (Spreadsheet.new.insert_row .End ["x", "y"]).get_rows
        ((Spreadsheet.new.insert_row .End ["x", "y"]).row_count - 1)
        ((Spreadsheet.new.insert_row .End ["x", "y"]).row_count - 1)
      = [[some "x", some "y"]] :=
  (claim_C4_insert_row Spreadsheet.new ["x", "y"]).2.2.2
    (fun c hc => absurd hc (List.not_mem_nil c))

/-- Length of a canonical catalog. -/
theorem canonicalFrom_length :
    ∀ (l : List String) (k : Nat), (canonicalFrom k l).length = l.length := by
  intro l
  induction l with
  | nil => intro k; rfl
  | cons n rest ih =>
    intro k
    simp only [canonicalFrom, List.length_cons]
    rw [ih (k + 1)]

/-- Every key of a canonical catalog starting at `k` is at least `k`. -/
theorem canonicalFrom_key_ge :
    ∀ (l : List String) (k : Nat) c, c ∈ canonicalFrom k l → (k : Int) ≤ c.1 := by
  intro l
  induction l with
  | nil => intro k c hc; cases hc
  | cons n rest ih =>
    intro k c hc
    rw [canonicalFrom] at hc
    rcases List.mem_cons.mp hc with h | h
    · subst h
      exact le_refl _
    · have h1 := ih (k + 1) c h
      have : ((k : Int) ≤ ((k + 1 : Nat) : Int)) := by push_cast; omega
      exact le_trans this h1

/-- A canonical catalog is strictly sorted by key. -/
theorem canonicalFrom_sorted_lt :
    ∀ (l : List String) (k : Nat), List.Sorted colLt (canonicalFrom k l) := by
  intro l
  induction l with
  | nil => intro k; exact List.sorted_nil
  | cons n rest ih =>
    intro k
    rw [canonicalFrom, List.sorted_cons]
    refine ⟨?_, ih (k + 1)⟩
    intro b hb
    have h1 := canonicalFrom_key_ge rest (k + 1) b hb
    show ((k : Int)) < b.1
    have : ((k : Int)) < ((k + 1 : Nat) : Int) := by push_cast; omega
    exact lt_of_lt_of_le this h1

/-- The keys of a canonical catalog are pairwise distinct. -/
theorem canonicalFrom_keys_nodup :
    ∀ (l : List String) (k : Nat), ((canonicalFrom k l).map Prod.fst).Nodup := by
  intro l
  induction l with
  | nil => intro k; exact List.nodup_nil
  | cons n rest ih =>
    intro k
    simp only [canonicalFrom, List.map, List.nodup_cons]
    refine ⟨?_, ih (k + 1)⟩
    intro hmem
    obtain ⟨c, hc, hck⟩ := List.mem_map.mp hmem
    have h1 := canonicalFrom_key_ge rest (k + 1) c hc
    rw [hck] at h1
    have : ¬ ((k + 1 : Nat) : Int) ≤ (k : Int) := by push_cast; omega
    exact this h1

/-- Splitting a canonical catalog along an append. -/
theorem canonicalFrom_append :
    ∀ (a b : List String) (k : Nat),
      canonicalFrom k (a ++ b) = canonicalFrom k a ++ canonicalFrom (k + a.length) b := by
  intro a
  induction a with
  | nil =>
    intro b k
    rfl
  | cons x rest ih =>
    intro b k
    simp only [List.cons_append, canonicalFrom, List.length_cons, List.append_eq]
    rw [ih b (k + 1)]
    rw [show k + 1 + rest.length = k + (rest.length + 1) from by omega]

/-- Projecting a canonical catalog back to its names. -/
theorem canonicalFrom_map_snd :
    ∀ (l : List String) (k : Nat), (canonicalFrom k l).map Prod.snd = l := by
  intro l
  induction l with
  | nil => intro k; rfl
  | cons n rest ih =>
    intro k
    simp only [canonicalFrom, List.map]
    rw [ih (k + 1)]

/-- A catalog sorted by key whose keys are pairwise distinct is strictly
sorted. -/
theorem sorted_colLe_keys_nodup {l : List (Int × String)}
    (h1 : List.Sorted colLe l) (h2 : (l.map Prod.fst).Nodup) :
    List.Sorted colLt l := by
  have h3 : List.Pairwise (fun a b : Int × String => a.1 ≠ b.1) l :=
    List.pairwise_map.mp h2
  exact List.Pairwise.imp (fun hab => lt_of_le_of_ne hab.1 hab.2)
    (List.Pairwise.and h1 h3)

/-- Shifting a canonical catalog that lies entirely at or above the pivot. -/
theorem canonicalFrom_map_shift_ge (p len : Nat) :
    ∀ (l : List String) (k : Nat), p ≤ k →
      (canonicalFrom k l).map
          (fun c => if c.1 ≥ ((p : Nat) : Int) then (c.1 + ((len : Nat) : Int), c.2) else c)
        = canonicalFrom (k + len) l := by
  intro l
  induction l with
  | nil => intro k hk; rfl
  | cons n rest ih =>
    intro k hk
    simp only [canonicalFrom, List.map]
    rw [if_pos (show ((k : Nat) : Int) ≥ ((p : Nat) : Int) from by exact_mod_cast hk)]
    rw [ih (k + 1) (le_trans hk (Nat.le_succ k))]
    rw [show k + 1 + len = k + len + 1 from by omega]
    rw [show ((k : Nat) : Int) + ((len : Nat) : Int) = ((k + len : Nat) : Int) from by push_cast; ring]

/-- Shifting a canonical catalog splits it at the pivot: keys below `p` stay,
keys at or above `p` move up by `len`. -/
theorem canonicalFrom_map_shift_split (p len : Nat) :
    ∀ (l : List String) (k : Nat), k ≤ p →
      (canonicalFrom k l).map
          (fun c => if c.1 ≥ ((p : Nat) : Int) then (c.1 + ((len : Nat) : Int), c.2) else c)
        = canonicalFrom k (l.take (p - k)) ++ canonicalFrom (p + len) (l.drop (p - k)) := by
  intro l
  induction l with
  | nil =>
    intro k hk
    simp [canonicalFrom]
  | cons n rest ih =>
    intro k hk
    rcases Nat.lt_or_ge k p with hlt | hge
    · have hm : p - k = (p - (k + 1)) + 1 := by omega
      rw [hm, List.take_succ_cons, List.drop_succ_cons]
      simp only [canonicalFrom, List.map, List.cons_append]
      rw [if_neg (show ¬ (((k : Nat) : Int) ≥ ((p : Nat) : Int)) from by omega)]
      rw [ih (k + 1) (by omega)]
    · have hk2 : k = p := le_antisymm hk hge
      rw [hk2, Nat.sub_self, List.take_zero, List.drop_zero]
      exact canonicalFrom_map_shift_ge p len (n :: rest) p (le_refl p)

/-- The column-insertion loop of `insert_columns` produces the canonical
catalog rows starting at the insertion position. -/
theorem enumFrom_map_cols (q : Nat) :
    ∀ (names : List String) (k : Nat),
      (names.enumFrom k).map (fun pr => (((q : Nat) : Int) + (pr.1 : Int), pr.2))
        = canonicalFrom (q + k) names := by
  intro names
  induction names with
  | nil => intro k; rfl
  | cons n rest ih =>
    intro k
    simp only [List.enumFrom, List.map, canonicalFrom]
    rw [ih (k + 1)]
    rw [show ((q : Nat) : Int) + ((k : Nat) : Int) = ((q + k : Nat) : Int) from by push_cast; ring]
    rfl

/-- Same, at the `enum` entry point used by the source. -/
theorem enum_map_cols (q : Nat) (names : List String) :
    names.enum.map (fun pr => (((q : Nat) : Int) + (pr.1 : Int), pr.2))
      = canonicalFrom q names :=
  enumFrom_map_cols q names 0

/-- On a well-formed catalog holding `old`, `insert_columns` at index `p`
yields (after sorting by id) exactly the canonical catalog of the spliced
name list, and its ids are pairwise distinct. -/
theorem insert_columns_index_spec (s : Spreadsheet) (old names : List String)
    (p : Nat) (h : s.columns.Perm (canonicalFrom 0 old)) (hp : p ≤ old.length) :
    (s.insert_columns (.Index (p : Int)) names).get_columns
        = old.take p ++ names ++ old.drop p ∧
    ((s.insert_columns (.Index (p : Int)) names).columns.map Prod.fst).Nodup := by
  have hpost : (s.insert_columns (.Index (p : Int)) names).columns
      = s.columns.map
          (fun c => if c.1 ≥ ((p : Nat) : Int) then (c.1 + ((names.length : Nat) : Int), c.2) else c)
        ++ names.enum.map (fun pr => (((p : Nat) : Int) + (pr.1 : Int), pr.2)) := rfl
  have hsplit := canonicalFrom_map_shift_split p names.length old 0 (Nat.zero_le p)
  have htarget : canonicalFrom 0 (old.take p ++ names ++ old.drop p)
      = canonicalFrom 0 (old.take p)
        ++ (canonicalFrom p names ++ canonicalFrom (p + names.length) (old.drop p)) := by
    rw [canonicalFrom_append, canonicalFrom_append, List.append_assoc]
    have hlen : (old.take p).length = p := by
      rw [List.length_take]
      omega
    rw [hlen, List.length_append, hlen]
    rw [show 0 + p = p from by omega]
    rw [show 0 + (p + names.length) = p + names.length from by omega]
  have hperm : (s.insert_columns (.Index (p : Int)) names).columns.Perm
      (canonicalFrom 0 (old.take p ++ names ++ old.drop p)) := by
    rw [hpost, enum_map_cols, htarget]
    refine List.Perm.trans (List.Perm.append_right _ (h.map _)) ?_
    rw [hsplit]
    rw [show old.take (p - 0) = old.take p from by rw [Nat.sub_zero]]
    rw [show old.drop (p - 0) = old.drop p from by rw [Nat.sub_zero]]
    rw [List.append_assoc]
    exact List.Perm.append_left _ List.perm_append_comm
  have hsortperm : (List.insertionSort colLe
      (s.insert_columns (.Index (p : Int)) names).columns).Perm
      (canonicalFrom 0 (old.take p ++ names ++ old.drop p)) :=
    (List.perm_insertionSort colLe _).trans hperm
  have hnodup_target := canonicalFrom_keys_nodup (old.take p ++ names ++ old.drop p) 0
  have hsorteq : List.insertionSort colLe (s.insert_columns (.Index (p : Int)) names).columns
      = canonicalFrom 0 (old.take p ++ names ++ old.drop p) := by
    refine List.eq_of_perm_of_sorted hsortperm ?_ (canonicalFrom_sorted_lt _ 0)
    refine sorted_colLe_keys_nodup (List.sorted_insertionSort colLe _) ?_
    exact ((hsortperm.map Prod.fst).nodup_iff).mpr hnodup_target
  constructor
  · show (List.insertionSort colLe (s.insert_columns (.Index (p : Int)) names).columns).map
        Prod.snd = _
    rw [hsorteq, canonicalFrom_map_snd]
  · exact ((hperm.map Prod.fst).nodup_iff).mpr hnodup_target

/-- C9: on a catalog holding the columns `old` (contiguous ids in display
order), `insert_columns(position, names)` shifts every column with id
`≥ position` right by `names.length` and writes the new columns at the freed
ids, so `columns()` afterwards is `old` with `names` spliced in at
`position`, the ids remain pairwise distinct (no collision); appending via
`End` splices at the end. -/
theorem claim_C9_insert_columns_splice (s : Spreadsheet) (old names : List String)
    (h : s.columns.Perm (canonicalFrom 0 old)) :
    (∀ p : Nat, p ≤ old.length →
      (s.insert_columns (.Index (p : Int)) names).get_columns
          = old.take p ++ names ++ old.drop p ∧
      ((s.insert_columns (.Index (p : Int)) names).columns.map Prod.fst).Nodup) ∧
    ((s.insert_columns .End names).get_columns = old ++ names ∧
      ((s.insert_columns .End names).columns.map Prod.fst).Nodup) := by
  refine ⟨fun p hp => insert_columns_index_spec s old names p h hp, ?_⟩
  have hcc : s.get_column_count = ((old.length : Nat) : Int) := by
    unfold Spreadsheet.get_column_count
    rw [h.length_eq, canonicalFrom_length]
  have heq : s.insert_columns .End names
      = s.insert_columns (.Index ((old.length : Nat) : Int)) names := by
    simp only [Spreadsheet.insert_columns, hcc]
  rw [heq]
  obtain ⟨h1, h2⟩ := insert_columns_index_spec s old names old.length h (le_refl _)
  refine ⟨?_, h2⟩
  rw [h1, List.take_length, List.drop_length, List.append_nil]

/-- Witness for C9: splicing `["X"]` at position 1 of a two-column catalog
`["A", "B"]`. -/
theorem claim_C9_insert_columns_splice_witness :
    ((Spreadsheet.mk [((0 : Int), "A"), ((1 : Int), "B")] [] false 0).insert_columns
        (.Index ((1 : Nat) : Int)) ["X"]).get_columns = ["A", "X", "B"] ∧
    ((Spreadsheet.mk [((0 : Int), "A"), ((1 : Int), "B")] [] false 0).insert_columns
        .End ["X"]).get_columns = ["A", "B", "X"] := by
  have hmain := claim_C9_insert_columns_splice
    (Spreadsheet.mk [((0 : Int), "A"), ((1 : Int), "B")] [] false 0)
    ["A", "B"] ["X"] (List.Perm.refl _)
  exact ⟨(hmain.1 1 (by decide)).1, hmain.2.1⟩

end Astinus
